import Mathlib

/-!
# Verification of the `ad_blog_api` search subsystem

Shallow embedding of `app/db/utils/search.py` and `app/db/utils/vector_search.py`.

Modelling conventions:

* Python / SQL floating point numbers are modelled as exact rationals (`ℚ`);
  the numeric literals of the source (`0.15`, `0.2`, `0.5`, `1.1`, …) are exact
  binary-representable or decimal values, so rational arithmetic mirrors the
  intended real-number semantics of the score formulas.
* Timestamps (`datetime` values, `published_at` columns, `func.now()`) are
  modelled as epoch seconds (`Int`).  CPython's `timedelta.days` is floor
  division of the total second count by 86400, i.e. `Int.fdiv`.
* The database is a list of `Article` rows.  Executing a `SELECT` is modelled
  by filtering the list with the `WHERE` predicate, computing the selected
  expressions per row, ordering with a stable insertion sort by the `ORDER BY`
  key (a deterministic representative of the orders the database may return),
  and applying `OFFSET`/`LIMIT`.
* The `filters` dictionary of the Python functions produces a conjunction of
  equality (and range) conditions on article columns; it is modelled as an
  opaque boolean predicate on rows.
* PostgreSQL text-search primitives (`websearch_to_tsquery`/`@@`, `ts_rank_cd`
  with normalisation flag 32, `ts_headline`, `pg_trgm`'s `similarity`) are
  implemented inside PostgreSQL, not in this repository; for one call the
  query string is fixed, so each primitive is modelled as an opaque function
  of the article row, bundled in `SearchEnv`.  Likewise pgvector's
  `cosine_distance` and `l2_distance` are opaque (`VectorEnv`), while
  `max_inner_product` (the `<#>` operator) is documented by pgvector to return
  the *negative* inner product and is modelled concretely.
* `LIKE`/`ILIKE` pattern matching is modelled concretely (`like_match`),
  including the `%`/`_` wildcards and `\` escapes.
* A Python `raise ValueError` is modelled as `Except.error`.
-/

/-- The columns of `app.db.models.article.Article` that the search subsystem
reads: `id`, `title`, `slug`, `summary` (nullable), `published_at` (nullable
timestamp, here epoch seconds), `is_featured`, `embedding` (nullable vector). -/
structure Article where
  id : Nat
  title : String
  slug : String
  summary : Option String
  published_at : Option Int
  is_featured : Bool
  embedding : Option (List ℚ)
deriving DecidableEq

/-- Inner product of two embedding vectors. -/
def innerProd : List ℚ → List ℚ → ℚ
  | a :: as, b :: bs => a * b + innerProd as bs
  | _, _ => 0

/-- pgvector's `max_inner_product` (the `<#>` operator, imported at the top of
`vector_search.py`): pgvector returns the **negative** inner product, so that
an ascending index scan maximises the true inner product. -/
def max_inner_product (a b : List ℚ) : ℚ := - innerProd a b

/-- The pgvector distance operators whose numeric value depends on PostgreSQL
internals (square roots for `l2`, norms for `cosine`) are modelled as opaque
functions of the two vectors. -/
structure VectorEnv where
  cosine_distance : List ℚ → List ℚ → ℚ
  l2_distance : List ℚ → List ℚ → ℚ

/-- `ORDER BY key ASC`: `a` may be placed before `b` iff `key a ≤ key b`. -/
def ascBy {α : Type} (key : α → ℚ) (a b : α) : Prop := key a ≤ key b

instance {α : Type} (key : α → ℚ) : DecidableRel (ascBy key) :=
  fun a b => (inferInstance : Decidable (key a ≤ key b))

instance {α : Type} (key : α → ℚ) : IsTotal α (ascBy key) :=
  ⟨fun a b => le_total (key a) (key b)⟩

instance {α : Type} (key : α → ℚ) : IsTrans α (ascBy key) :=
  ⟨fun _ _ _ h1 h2 => le_trans h1 h2⟩

/-- Model of `search_by_embedding` (`vector_search.py` lines 18-76).

* An unsupported `distance_metric` raises `ValueError` (modelled as
  `Except.error`) before the statement is built, so the database is never read.
* The statement selects `(Article, distance_expr)` for rows with a non-`NULL`
  embedding that pass the filters, ordered ascending by `distance_expr`,
  except that for `"ip"` the order key is `func.negative(distance_expr)`
  (modelled charitably as arithmetic negation; PostgreSQL itself defines no
  `negative()` function), and truncated to `limit` rows. -/
def search_by_embedding (env : VectorEnv) (db : List Article)
    (query_vec : List ℚ) (limit : Nat) (filters : Article → Bool)
    (distance_metric : String) : Except String (List (Article × ℚ)) :=
  if distance_metric = "cosine" ∨ distance_metric = "l2" ∨ distance_metric = "ip" then
    let distance_fn : List ℚ → List ℚ → ℚ :=
      if distance_metric = "cosine" then env.cosine_distance
      else if distance_metric = "l2" then env.l2_distance
      else max_inner_product
    let distance_expr : Article → ℚ := fun a => distance_fn (a.embedding.getD []) query_vec
    let order_expr : Article → ℚ :=
      fun a => if distance_metric = "ip" then - distance_expr a else distance_expr a
    let candidates := db.filter (fun a => a.embedding.isSome && filters a)
    let sorted := List.insertionSort (ascBy order_expr) candidates
    Except.ok ((sorted.take limit).map (fun a => (a, distance_expr a)))
  else
    Except.error ("Unsupported distance metric: " ++ distance_metric)

/-- A two-article corpus for exercising the `"ip"` metric: embeddings `[1]`
and `[2]`, so with query vector `[1]` the inner products are `1` and `2`. -/
def ipArticle1 : Article :=
  { id := 1, title := "a1", slug := "a1", summary := none,
    published_at := none, is_featured := false, embedding := some [1] }

def ipArticle2 : Article :=
  { id := 2, title := "a2", slug := "a2", summary := none,
    published_at := none, is_featured := false, embedding := some [2] }

def ipEnv : VectorEnv := ⟨fun _ _ => 0, fun _ _ => 0⟩

/-- C1: refuted by the code (code bug).  With `distance_metric = "ip"`, query
vector `[1]` and embeddings `[1]` and `[2]`, the function returns the article
with inner product `1` **before** the article with inner product `2`: the
order key `func.negative(max_inner_product e q) = -(-⟪e,q⟫) = ⟪e,q⟫` is sorted
ascending, i.e. the returned order is *ascending* inner product (least similar
first), contradicting the claimed descending order — the double negation
cancels because pgvector's `<#>` is already the negated inner product.  The
returned `distance` column values are the raw `<#>` values `-1` and `-2`. -/
theorem search_by_embedding_ip_ascending_bug :
    search_by_embedding ipEnv [ipArticle1, ipArticle2] [1] 10 (fun _ => true) "ip"
      = Except.ok [(ipArticle1, -1), (ipArticle2, -2)]
    ∧ innerProd ((some [(1 : ℚ)]).getD []) [1] < innerProd ((some [(2 : ℚ)]).getD []) [1] := by
  constructor
  · simp +decide only [search_by_embedding, List.insertionSort, List.orderedInsert, ascBy,
      max_inner_product, innerProd, ipEnv, ipArticle1, ipArticle2]
    norm_num [max_inner_product, innerProd]
  · norm_num [innerProd]

/-- C10: for every metric other than `"cosine"`, `"l2"`, `"ip"`, the function
returns the `ValueError` (with the source's message) without reading the
database — the result is the same for any two database states — and for the
three supported metrics metric selection raises no error. -/
theorem search_by_embedding_metric_validation
    (env : VectorEnv) (db db' : List Article) (q : List ℚ) (limit : Nat)
    (filters : Article → Bool) (metric : String) :
    (metric ≠ "cosine" → metric ≠ "l2" → metric ≠ "ip" →
      search_by_embedding env db q limit filters metric
          = Except.error ("Unsupported distance metric: " ++ metric)
        ∧ search_by_embedding env db q limit filters metric
          = search_by_embedding env db' q limit filters metric)
    ∧ ((metric = "cosine" ∨ metric = "l2" ∨ metric = "ip") →
      ∃ rows, search_by_embedding env db q limit filters metric = Except.ok rows) := by
  constructor
  · intro h1 h2 h3
    have hb : ¬(metric = "cosine" ∨ metric = "l2" ∨ metric = "ip") := by
      rintro (h | h | h) <;> [exact h1 h; exact h2 h; exact h3 h]
    rw [search_by_embedding, if_neg hb, search_by_embedding, if_neg hb]
    exact ⟨rfl, rfl⟩
  · intro hm
    rw [search_by_embedding, if_pos hm]
    exact ⟨_, rfl⟩

/-- Witness for C10 at concrete inputs: metric `"dot"` is rejected with the
exact error string independently of the database, and `"cosine"` is accepted. -/
theorem search_by_embedding_metric_validation_witness :
    (search_by_embedding ipEnv [ipArticle1] [1] 5 (fun _ => true) "dot"
        = Except.error "Unsupported distance metric: dot"
      ∧ search_by_embedding ipEnv [ipArticle1] [1] 5 (fun _ => true) "dot"
        = search_by_embedding ipEnv [] [1] 5 (fun _ => true) "dot")
    ∧ ∃ rows, search_by_embedding ipEnv [ipArticle1] [1] 5 (fun _ => true) "cosine"
        = Except.ok rows := by
  refine ⟨?_, ?_⟩
  · exact (search_by_embedding_metric_validation ipEnv [ipArticle1] [] [1] 5
      (fun _ => true) "dot").1 (by decide) (by decide) (by decide)
  · exact (search_by_embedding_metric_validation ipEnv [ipArticle1] [] [1] 5
      (fun _ => true) "cosine").2 (Or.inl rfl)

/-! ## Full-text article search (`app/db/utils/search.py`) -/

/-- The PostgreSQL text-search primitives used by `search_articles`.  For one
call the query string is fixed, so each primitive is a function of the
article row alone:

* `ts_match a`: `a.search_vector @@ websearch_to_tsquery('simple', unaccent(query))`;
* `ts_rank_cd a`: `ts_rank_cd(a.search_vector, tsq, 32)` — the cover-density
  rank with length normalisation flag `32` (the `_rank` helper);
* `hl_title a` / `hl_summary a`: the two `ts_headline('simple', …)` columns
  (the summary one applied to `coalesce(summary, '')`);
* `sim_title a` / `sim_summary a`: `pg_trgm` `similarity(title, query)` and
  `similarity(coalesce(summary, ''), query)`;
* `now`: the transaction timestamp `func.now()` (epoch seconds). -/
structure SearchEnv where
  ts_match : Article → Bool
  ts_rank_cd : Article → ℚ
  hl_title : Article → String
  hl_summary : Article → String
  sim_title : Article → ℚ
  sim_summary : Article → ℚ
  now : Int

/-- `FEATURED_BOOST = 0.2` (search.py line 10). -/
def FEATURED_BOOST : ℚ := 2/10

/-- The recency term of the score (search.py lines 87-99):
`(1 - least(1, greatest(0, extract(epoch, now() - coalesce(published_at, now())) / 86400))) * 0.15`. -/
def recency_boost_term (env : SearchEnv) (a : Article) : ℚ :=
  (1 - min 1 (max 0 (((env.now - a.published_at.getD env.now : Int) : ℚ) / 86400))) * (15/100)

/-- The featured term (search.py line 100): `case((is_featured, 0.2), else_=0.0)`. -/
def featured_boost_term (a : Article) : ℚ :=
  if a.is_featured then FEATURED_BOOST else 0

/-- `rank` (search.py lines 53, 60): the literal `0.0` when the query string is
falsy, otherwise `ts_rank_cd(search_vector, tsq, 32)`.  A `None` query and an
empty-string query are both falsy in Python and are modelled as `""`. -/
def rank_term (env : SearchEnv) (query : String) (a : Article) : ℚ :=
  if query = "" then 0 else env.ts_rank_cd a

/-- The `score` column (search.py line 102): `rank + recency_boost + featured_boost`. -/
def score_col (env : SearchEnv) (query : String) (a : Article) : ℚ :=
  rank_term env query a + recency_boost_term env a + featured_boost_term a

/-- One returned result dictionary of `search_articles`. -/
structure SearchRow where
  id : Nat
  slug : String
  title : String
  summary : Option String
  published_at : Option Int
  is_featured : Bool
  score : ℚ
deriving DecidableEq

/-- `published_at DESC NULLS LAST`: row `a` may be placed before row `b`. -/
def pub_desc_nulls_last : Option Int → Option Int → Prop
  | some x, some y => y ≤ x
  | some _, none => True
  | none, some _ => False
  | none, none => True

/-- `ORDER BY score DESC, published_at DESC NULLS LAST` as a ≤-like relation. -/
def row_order (a b : SearchRow) : Prop :=
  b.score < a.score ∨ (a.score = b.score ∧ pub_desc_nulls_last a.published_at b.published_at)

instance : DecidableRel pub_desc_nulls_last := fun a b =>
  match a, b with
  | some x, some y => (inferInstance : Decidable (y ≤ x))
  | some _, none => isTrue trivial
  | none, some _ => isFalse (fun h => h)
  | none, none => isTrue trivial

instance : IsTotal (Option Int) pub_desc_nulls_last :=
  ⟨fun a b =>
    match a, b with
    | some x, some y => le_total y x
    | some _, none => Or.inl trivial
    | none, some _ => Or.inr trivial
    | none, none => Or.inl trivial⟩

instance : IsTrans (Option Int) pub_desc_nulls_last :=
  ⟨fun a b c h1 h2 =>
    match a, b, c, h1, h2 with
    | some _, some _, some _, h1, h2 => le_trans h2 h1
    | some _, some _, none, _, _ => trivial
    | some _, none, none, _, _ => trivial
    | none, none, none, _, _ => trivial
    | _, none, some _, _, h2 => absurd h2 (fun h => h)
    | none, some _, _, h1, _ => absurd h1 (fun h => h)⟩

instance : DecidableRel row_order := fun a b =>
  (inferInstance : Decidable (b.score < a.score ∨
    (a.score = b.score ∧ pub_desc_nulls_last a.published_at b.published_at)))

instance : IsTotal SearchRow row_order :=
  ⟨fun a b => by
    rcases lt_trichotomy a.score b.score with h | h | h
    · exact Or.inr (Or.inl h)
    · rcases total_of pub_desc_nulls_last a.published_at b.published_at with hp | hp
      · exact Or.inl (Or.inr ⟨h, hp⟩)
      · exact Or.inr (Or.inr ⟨h.symm, hp⟩)
    · exact Or.inl (Or.inl h)⟩

instance : IsTrans SearchRow row_order :=
  ⟨fun a b c h1 h2 => by
    rcases h1 with h1 | ⟨h1e, h1p⟩
    · rcases h2 with h2 | ⟨h2e, _⟩
      · exact Or.inl (lt_trans h2 h1)
      · exact Or.inl (h2e ▸ h1)
    · rcases h2 with h2 | ⟨h2e, h2p⟩
      · exact Or.inl (h1e ▸ h2)
      · exact Or.inr ⟨h1e.trans h2e, trans_of pub_desc_nulls_last h1p h2p⟩⟩

/-- The main-query `WHERE` clause (search.py lines 51-84): the full-text match
is required only when the query string is truthy; the `filters` dictionary
contributes the opaque predicate. -/
def matches_main (env : SearchEnv) (query : String) (filters : Article → Bool)
    (a : Article) : Bool :=
  (query = "" || env.ts_match a) && filters a

/-- One row of the main query as returned to the caller (search.py lines
104-141): the title/summary are the `ts_headline` columns exactly when a query
was given and `highlight` is on (`hl_title`/`hl_summary` fall back to the raw
columns when there is no query, and the Python list comprehension picks the raw
columns when `highlight` is off). -/
def main_row (env : SearchEnv) (query : String) (highlight : Bool)
    (a : Article) : SearchRow :=
  { id := a.id, slug := a.slug
    title := if highlight && query ≠ "" then env.hl_title a else a.title
    summary := if highlight && query ≠ "" then some (env.hl_summary a) else a.summary
    published_at := a.published_at, is_featured := a.is_featured
    score := score_col env query a }

/-- The full main query (search.py lines 104-127): filter, project, order by
`score DESC, published_at DESC NULLS LAST`, then `OFFSET`/`LIMIT`. -/
def main_rows (env : SearchEnv) (db : List Article) (query : String)
    (filters : Article → Bool) (limit offset : Nat) (highlight : Bool) : List SearchRow :=
  ((List.insertionSort row_order
      ((db.filter (matches_main env query filters)).map (main_row env query highlight))).drop
    offset).take limit

/-- PostgreSQL `LIKE` pattern matching over character lists: `%` matches any
sequence, `_` any single character, `\` escapes the next pattern character.
(For a pattern ending in a bare `\` PostgreSQL raises an error; that case
cannot arise from the `%…%` patterns built below, and is modelled as matching
a literal backslash.)  The explicit fuel argument makes the recursion
structural; every step shortens `pattern.length + s.length`, so any fuel
exceeding that sum computes the full match. -/
def like_match_fuel : Nat → List Char → List Char → Bool
  | _ + 1, [], [] => true
  | _ + 1, [], _ :: _ => false
  | fuel + 1, '%' :: ps, [] => like_match_fuel fuel ps []
  | fuel + 1, '%' :: ps, c :: s =>
    like_match_fuel fuel ps (c :: s) || like_match_fuel fuel ('%' :: ps) s
  | _ + 1, '_' :: _, [] => false
  | fuel + 1, '_' :: ps, _ :: s => like_match_fuel fuel ps s
  | _ + 1, '\\' :: _ :: _, [] => false
  | fuel + 1, '\\' :: p :: ps, c :: s => c = p && like_match_fuel fuel ps s
  | _ + 1, _ :: _, [] => false
  | fuel + 1, p :: ps, c :: s => c = p && like_match_fuel fuel ps s
  | 0, _, _ => false

def like_match (pattern s : List Char) : Bool :=
  like_match_fuel (pattern.length + s.length + 1) pattern s

/-- ASCII lowering of a character list (PostgreSQL `lower`). -/
def lower_chars (l : List Char) : List Char := l.map Char.toLower

/-- `string ILIKE pattern`: case-insensitive `LIKE` (both sides lowered). -/
def ilike (s pattern : String) : Bool :=
  like_match (lower_chars pattern.toList) (lower_chars s.toList)

/-- The fuzzy-fallback `WHERE` clause (search.py line 158):
`title ILIKE '%query%' OR summary ILIKE '%query%'` (a `NULL` summary makes the
second disjunct unknown, i.e. it does not match). -/
def fuzzy_matches (query : String) (a : Article) : Bool :=
  ilike a.title ("%" ++ query ++ "%")
    || (match a.summary with
        | some s => ilike s ("%" ++ query ++ "%")
        | none => false)

/-- `fuzzy_score` (search.py lines 144-146):
`similarity(title, query) * 0.7 + similarity(coalesce(summary,''), query) * 0.3`. -/
def fuzzy_score_col (env : SearchEnv) (a : Article) : ℚ :=
  env.sim_title a * (7/10) + env.sim_summary a * (3/10)

/-- One row of the fuzzy-fallback query (search.py lines 148-176): raw title
and summary (no highlighting), scored by `fuzzy_score`. -/
def fuzzy_row (env : SearchEnv) (a : Article) : SearchRow :=
  { id := a.id, slug := a.slug, title := a.title, summary := a.summary
    published_at := a.published_at, is_featured := a.is_featured
    score := fuzzy_score_col env a }

/-- The fuzzy-fallback query `q2` (search.py lines 148-163): note it applies
no `filters`, orders by `fuzzy_score DESC, published_at DESC NULLS LAST`, and
paginates with the same `limit`/`offset`. -/
def fallback_rows (env : SearchEnv) (db : List Article) (query : String)
    (limit offset : Nat) : List SearchRow :=
  ((List.insertionSort row_order
      ((db.filter (fuzzy_matches query)).map (fuzzy_row env))).drop offset).take limit

/-- Model of `search_articles` (search.py lines 19-176).  The source returns
the main-query rows when they are non-empty or no query was given
(`if rows or not query`), and otherwise the trigram fuzzy fallback.
`update_vectors` only triggers a side-effecting recompute of the stored
search vectors before querying and does not occur in the projection; it is
omitted.  A `None` query is falsy exactly like `""` and is modelled as `""`. -/
def search_articles (env : SearchEnv) (db : List Article) (query : String)
    (filters : Article → Bool) (limit offset : Nat) (highlight : Bool) : List SearchRow :=
  let rows := main_rows env db query filters limit offset highlight
  if rows = [] ∧ query ≠ "" then fallback_rows env db query limit offset else rows

/-- C4: on the full-text path (taken whenever the main query has rows or no
query was given), every returned row's score is
`rank + recency_boost + featured_boost` with `rank = ts_rank_cd(…, 32)` (0
without a query), `recency_boost = (1 - min(1, max(0, age_seconds/86400))) * 0.15`
and `featured_boost = 0.2` exactly for featured articles, and the result list
is ordered by score descending with `published_at` descending, nulls last, as
tie-break. -/
theorem search_articles_main_score_and_order
    (env : SearchEnv) (db : List Article) (query : String)
    (filters : Article → Bool) (limit offset : Nat) (highlight : Bool)
    (h : query = "" ∨ main_rows env db query filters limit offset highlight ≠ []) :
    search_articles env db query filters limit offset highlight
      = main_rows env db query filters limit offset highlight
    ∧ (∀ r ∈ search_articles env db query filters limit offset highlight,
        ∃ a, a ∈ db ∧ matches_main env query filters a = true ∧ r.id = a.id
          ∧ r.score = (if query = "" then 0 else env.ts_rank_cd a)
              + (1 - min 1 (max 0 (((env.now - a.published_at.getD env.now : Int) : ℚ) / 86400)))
                  * (15/100)
              + (if a.is_featured then (2:ℚ)/10 else 0))
    ∧ List.Sorted row_order (search_articles env db query filters limit offset highlight) := by
  have hmain : search_articles env db query filters limit offset highlight
      = main_rows env db query filters limit offset highlight := by
    unfold search_articles
    rw [if_neg]
    rintro ⟨he, hq⟩
    rcases h with h | h
    · exact hq h
    · exact h he
  refine ⟨hmain, ?_, ?_⟩
  · intro r hr
    rw [hmain] at hr
    have hr' : r ∈ (db.filter (matches_main env query filters)).map
        (main_row env query highlight) := by
      have h1 := List.take_subset _ _ hr
      have h2 := List.drop_subset _ _ h1
      exact (List.mem_insertionSort row_order).mp h2
    rcases List.mem_map.mp hr' with ⟨a, ha, rfl⟩
    rcases List.mem_filter.mp ha with ⟨hadb, hamatch⟩
    refine ⟨a, hadb, hamatch, rfl, ?_⟩
    simp [main_row, score_col, rank_term, recency_boost_term, featured_boost_term,
      FEATURED_BOOST]
  · rw [hmain]
    unfold main_rows
    exact ((List.sorted_insertionSort row_order _).sublist
      ((List.take_sublist _ _).trans (List.drop_sublist _ _)))

/-- A small concrete environment and corpus shared by the witnesses below. -/
def wEnv : SearchEnv :=
  { ts_match := fun _ => true, ts_rank_cd := fun _ => 1,
    hl_title := fun a => a.title, hl_summary := fun _ => "",
    sim_title := fun _ => 1/2, sim_summary := fun _ => 0, now := 0 }

def wArt : Article :=
  { id := 7, title := "Hello", slug := "hello", summary := some "World",
    published_at := some 0, is_featured := true, embedding := none }

/-- Witness for C4: the hypothesis (no query string was given, so the main
path is taken) holds at a concrete input, and the theorem's conclusion follows
by applying it there. -/
theorem search_articles_main_score_and_order_witness :
    ("" : String) = ""
    ∧ (search_articles wEnv [wArt] "" (fun _ => true) 5 0 false
        = main_rows wEnv [wArt] "" (fun _ => true) 5 0 false
      ∧ (∀ r ∈ search_articles wEnv [wArt] "" (fun _ => true) 5 0 false,
          ∃ a, a ∈ [wArt] ∧ matches_main wEnv "" (fun _ => true) a = true ∧ r.id = a.id
            ∧ r.score = (if ("" : String) = "" then 0 else wEnv.ts_rank_cd a)
                + (1 - min 1 (max 0 (((wEnv.now - a.published_at.getD wEnv.now : Int) : ℚ) / 86400)))
                    * (15/100)
                + (if a.is_featured then (2:ℚ)/10 else 0))
      ∧ List.Sorted row_order (search_articles wEnv [wArt] "" (fun _ => true) 5 0 false)) :=
  ⟨rfl, search_articles_main_score_and_order wEnv [wArt] "" (fun _ => true) 5 0 false
    (Or.inl rfl)⟩

/-- C5 (amended): the fuzzy fallback.  When a non-empty query is given and the
full-text main query returns no rows, `search_articles` does not fail: it
returns the trigram fallback — the articles whose title or summary matches
the SQL pattern `'%' || query || '%'` case-insensitively (`ILIKE`), scored
`0.7 * similarity(title, query) + 0.3 * similarity(coalesce(summary,''), query)`,
ordered by that fuzzy score descending with `published_at` descending, nulls
last, as tie-break (and paginated by the same limit/offset).  With an empty or
absent query the fallback is never taken. -/
theorem search_articles_fuzzy_fallback
    (env : SearchEnv) (db : List Article) (query : String)
    (filters : Article → Bool) (limit offset : Nat) (highlight : Bool) :
    (query ≠ "" → main_rows env db query filters limit offset highlight = [] →
      search_articles env db query filters limit offset highlight
        = fallback_rows env db query limit offset
      ∧ (∀ r ∈ search_articles env db query filters limit offset highlight,
          ∃ a, a ∈ db ∧ fuzzy_matches query a = true ∧ r.id = a.id
            ∧ r.score = env.sim_title a * (7/10) + env.sim_summary a * (3/10))
      ∧ List.Sorted row_order (search_articles env db query filters limit offset highlight))
    ∧ (query = "" →
      search_articles env db query filters limit offset highlight
        = main_rows env db query filters limit offset highlight) := by
  constructor
  · intro hq hempty
    have hfb : search_articles env db query filters limit offset highlight
        = fallback_rows env db query limit offset := by
      unfold search_articles
      rw [if_pos ⟨hempty, hq⟩]
    refine ⟨hfb, ?_, ?_⟩
    · intro r hr
      rw [hfb] at hr
      have hr' : r ∈ (db.filter (fuzzy_matches query)).map (fuzzy_row env) := by
        have h1 := List.take_subset _ _ hr
        have h2 := List.drop_subset _ _ h1
        exact (List.mem_insertionSort row_order).mp h2
      rcases List.mem_map.mp hr' with ⟨a, ha, rfl⟩
      rcases List.mem_filter.mp ha with ⟨hadb, hamatch⟩
      exact ⟨a, hadb, hamatch, rfl, by simp [fuzzy_row, fuzzy_score_col]⟩
    · rw [hfb]
      unfold fallback_rows
      exact ((List.sorted_insertionSort row_order _).sublist
        ((List.take_sublist _ _).trans (List.drop_sublist _ _)))
  · intro hq
    unfold search_articles
    rw [if_neg]
    rintro ⟨_, hq'⟩
    exact hq' hq

/-- The substring notion the claim asserts (modelled from the spec's words:
"contains the query as a case-insensitive substring"), for comparison with
the `ILIKE` pattern semantics the code actually uses. -/
def leads_with : List Char → List Char → Bool
  | [], _ => true
  | _ :: _, [] => false
  | a :: as, b :: bs => a = b && leads_with as bs

def chars_contain (hay needle : List Char) : Bool :=
  match hay with
  | [] => needle.isEmpty
  | _ :: rest => leads_with needle hay || chars_contain rest needle

def contains_ci (hay needle : String) : Bool :=
  chars_contain (lower_chars hay.toList) (lower_chars needle.toList)

/-- Environment for the C5 counterexample: the full-text stage matches
nothing, trigram similarities are constants. -/
def cEnv : SearchEnv :=
  { ts_match := fun _ => false, ts_rank_cd := fun _ => 0,
    hl_title := fun a => a.title, hl_summary := fun _ => "",
    sim_title := fun _ => 1/2, sim_summary := fun _ => 0, now := 0 }

def cArt : Article :=
  { id := 3, title := "xzy", slug := "xzy", summary := none,
    published_at := none, is_featured := false, embedding := none }

/-- C5 as stated is false: with query `"x%y"` (which contains a `LIKE`
wildcard) and the single article titled `"xzy"` with no summary, the
full-text stage returns zero rows and the fallback *does* return the article
(`'xzy' ILIKE '%x%y%'` holds, `%` matching the middle letter), although
`"x%y"` is not a case-insensitive substring of `"xzy"` — so the fallback
result set is not "exactly the articles whose title or summary contains the
query as a case-insensitive substring". -/
theorem search_articles_fuzzy_substring_counterexample :
    (search_articles cEnv [cArt] "x%y" (fun _ => true) 10 0 false).map (fun r => r.id) = [3]
    ∧ contains_ci cArt.title "x%y" = false
    ∧ cArt.summary = none := by
  refine ⟨?_, by decide, rfl⟩
  simp +decide [search_articles, main_rows, fallback_rows, matches_main, cEnv, cArt,
    fuzzy_matches, ilike, like_match, like_match_fuel, lower_chars, fuzzy_row,
    fuzzy_score_col, List.insertionSort, List.orderedInsert]

/-- Witness for C5: at the counterexample corpus the query is non-empty and
the full-text stage is empty, so the theorem applies and the fallback is
returned. -/
theorem search_articles_fuzzy_fallback_witness :
    ("x%y" : String) ≠ ""
    ∧ main_rows cEnv [cArt] "x%y" (fun _ => true) 10 0 false = []
    ∧ search_articles cEnv [cArt] "x%y" (fun _ => true) 10 0 false
        = fallback_rows cEnv [cArt] "x%y" 10 0 := by
  refine ⟨by decide, by decide, ?_⟩
  exact ((search_articles_fuzzy_fallback cEnv [cArt] "x%y" (fun _ => true) 10 0 false).1
    (by decide) (by decide)).1

/-- The main-query `ORDER BY` key pulled back to article rows: the row score
and `published_at` of `main_row` do not depend on `highlight`, so this is the
same relation however the rows are rendered. -/
def article_order (env : SearchEnv) (query : String) (a b : Article) : Prop :=
  score_col env query b < score_col env query a
    ∨ (score_col env query a = score_col env query b
        ∧ pub_desc_nulls_last a.published_at b.published_at)

instance (env : SearchEnv) (query : String) : DecidableRel (article_order env query) :=
  fun a b => (inferInstance : Decidable (score_col env query b < score_col env query a
    ∨ (score_col env query a = score_col env query b
        ∧ pub_desc_nulls_last a.published_at b.published_at)))

/-- The main query factors through a sort of the article list: the rows can be
built after sorting, because the order key reads only fields that `main_row`
copies from the article. -/
theorem main_rows_factor (env : SearchEnv) (db : List Article) (query : String)
    (filters : Article → Bool) (limit offset : Nat) (hl : Bool) :
    main_rows env db query filters limit offset hl
      = (((List.insertionSort (article_order env query)
            (db.filter (matches_main env query filters))).map
          (main_row env query hl)).drop offset).take limit := by
  unfold main_rows
  rw [← List.map_insertionSort (article_order env query) row_order (main_row env query hl) _
    (fun _ _ _ _ => Iff.rfl)]

/-- C9: the `highlight` flag changes only the rendered title/summary text:
the `id`/`slug` sequences of the two runs coincide for every environment,
corpus, query, filter set, and pagination bounds (on both the full-text path
and the fuzzy-fallback path). -/
theorem search_articles_highlight_invariant (env : SearchEnv) (db : List Article)
    (query : String) (filters : Article → Bool) (limit offset : Nat) :
    (search_articles env db query filters limit offset true).map (fun r => (r.id, r.slug))
      = (search_articles env db query filters limit offset false).map (fun r => (r.id, r.slug)) := by
  have hproj : ∀ hl : Bool,
      (main_rows env db query filters limit offset hl).map (fun r => (r.id, r.slug))
        = (((List.insertionSort (article_order env query)
              (db.filter (matches_main env query filters))).drop offset).take limit).map
            (fun a => (a.id, a.slug)) := by
    intro hl
    rw [main_rows_factor env db query filters limit offset hl, List.map_take, List.map_drop,
      List.map_map, List.map_take, List.map_drop]
    rfl
  have hlen : (main_rows env db query filters limit offset true) = [] ↔
      (main_rows env db query filters limit offset false) = [] := by
    constructor <;> intro h
    · have h2 := (hproj false).trans (hproj true).symm
      rw [h] at h2
      simpa using h2
    · have h2 := (hproj true).trans (hproj false).symm
      rw [h] at h2
      simpa using h2
  unfold search_articles
  by_cases hc : main_rows env db query filters limit offset true = [] ∧ query ≠ ""
  · rw [if_pos hc, if_pos ⟨hlen.mp hc.1, hc.2⟩]
  · rw [if_neg hc, if_neg (fun hcf => hc ⟨hlen.mpr hcf.1, hcf.2⟩), hproj true, hproj false]

/-! ## Hybrid search (`app/db/utils/vector_search.py`, lines 79-213) -/

/-- One entry of `semantic_dicts` (vector_search.py lines 131-143). -/
structure SemDict where
  id : Nat
  title : String
  slug : String
  summary : Option String
  published_at : Option Int
  is_featured : Bool
  semantic_score : ℚ
deriving DecidableEq

/-- One value of `results_by_id` / one returned dictionary of `hybrid_search`.
Optional fields model dictionary keys that are present on some entries only:
`score` (the raw text score, absent on semantic-only entries),
`semantic_score` (absent on text-only entries), and the `recency_boost` /
`featured_boost` keys set when the respective boost fires. -/
structure HybridItem where
  id : Nat
  title : String
  slug : String
  summary : Option String
  published_at : Option Int
  is_featured : Bool
  score : Option ℚ
  text_score : ℚ
  semantic_score : Option ℚ
  combined_score : ℚ
  recency_boost : Option ℚ
  featured_boost : Option ℚ
deriving DecidableEq

/-- Python `max` over a non-empty list (the `[]` case is never used). -/
def qmax : List ℚ → ℚ
  | [] => 0
  | x :: xs => xs.foldl max x

/-- `max_distance` (vector_search.py lines 125-128): `1.0` when there are no
semantic results, and `max(...) or 1.0` — the Python `or` replaces a falsy
`0.0` maximum by `1.0`. -/
def max_distance (semantic_results : List (Article × ℚ)) : ℚ :=
  match semantic_results with
  | [] => 1
  | _ =>
    if qmax (semantic_results.map (fun p => p.2)) = 0 then 1
    else qmax (semantic_results.map (fun p => p.2))

/-- `max_text_score` (vector_search.py lines 145-148), same guard. -/
def max_text_score (text_results : List SearchRow) : ℚ :=
  match text_results with
  | [] => 1
  | _ =>
    if qmax (text_results.map (fun t => t.score)) = 0 then 1
    else qmax (text_results.map (fun t => t.score))

/-- One semantic result converted to dictionary form with normalised score
`1.0 - distance / max_distance` (vector_search.py lines 131-143). -/
def semantic_dict (md : ℚ) (p : Article × ℚ) : SemDict :=
  { id := p.1.id, title := p.1.title, slug := p.1.slug, summary := p.1.summary,
    published_at := p.1.published_at, is_featured := p.1.is_featured,
    semantic_score := 1 - p.2 / md }

def semantic_dicts (semantic_results : List (Article × ℚ)) : List SemDict :=
  semantic_results.map (semantic_dict (max_distance semantic_results))

/-- The entry written by the text loop (vector_search.py lines 160-172):
normalised text score, base combined score `(1 - semantic_weight) * nts`. -/
def text_item (semantic_weight mts : ℚ) (t : SearchRow) : HybridItem :=
  { id := t.id, title := t.title, slug := t.slug, summary := t.summary,
    published_at := t.published_at, is_featured := t.is_featured,
    score := some t.score, text_score := t.score / mts, semantic_score := none,
    combined_score := (1 - semantic_weight) * (t.score / mts),
    recency_boost := none, featured_boost := none }

/-- Python dict assignment `results_by_id[k] = v`: overwrite in place if the
key is present (keeping its position), else append. -/
def dict_set (acc : List HybridItem) (x : HybridItem) : List HybridItem :=
  if acc.any (fun y => y.id == x.id) then
    acc.map (fun y => if y.id == x.id then x else y)
  else acc ++ [x]

/-- The text-results loop (vector_search.py lines 160-172). -/
def process_text_results (semantic_weight mts : ℚ) (ts : List SearchRow) : List HybridItem :=
  ts.foldl (fun acc t => dict_set acc (text_item semantic_weight mts t)) []

/-- The entry appended for an article found only by semantic search
(vector_search.py lines 182-188): `text_score = 0`, combined score
`semantic_weight * semantic_score`. -/
def sem_only_item (semantic_weight : ℚ) (s : SemDict) : HybridItem :=
  { id := s.id, title := s.title, slug := s.slug, summary := s.summary,
    published_at := s.published_at, is_featured := s.is_featured,
    score := none, text_score := 0, semantic_score := some s.semantic_score,
    combined_score := semantic_weight * s.semantic_score,
    recency_boost := none, featured_boost := none }

/-- One iteration of the semantic-results loop (vector_search.py lines
174-188): update in place when the id is already present (adding
`semantic_weight * semantic_score` to the combined score), else append. -/
def sem_merge_step (semantic_weight : ℚ) (acc : List HybridItem) (s : SemDict) :
    List HybridItem :=
  if acc.any (fun y => y.id == s.id) then
    acc.map (fun y =>
      if y.id == s.id then
        { y with semantic_score := some s.semantic_score,
                 combined_score := y.combined_score + semantic_weight * s.semantic_score }
      else y)
  else acc ++ [sem_only_item semantic_weight s]

def process_semantic_results (semantic_weight : ℚ) (acc : List HybridItem)
    (sd : List SemDict) : List HybridItem :=
  sd.foldl (sem_merge_step semantic_weight) acc

/-- The merged `results_by_id.values()` in insertion order, before boosts. -/
def merged_results (semantic_weight : ℚ) (ts : List SearchRow)
    (sems : List (Article × ℚ)) : List HybridItem :=
  process_semantic_results semantic_weight
    (process_text_results semantic_weight (max_text_score ts) ts)
    (semantic_dicts sems)

/-- The recency boost applied to one entry (vector_search.py lines 192-200):
for an article published strictly within the last 30 days, multiply by
`1 + max(0, (30 - days_old)/30) * 0.15` where `days_old` is the floor of the
age in days (CPython `timedelta.days`), and record the factor. -/
def recency_step (recency_boost : Bool) (now : Int) (it : HybridItem) : HybridItem :=
  if recency_boost then
    match it.published_at with
    | none => it
    | some pub =>
      if now - 30 * 86400 < pub then
        { it with
          combined_score := it.combined_score *
            (1 + max 0 (((30 - Int.fdiv (now - pub) 86400 : Int) : ℚ) / 30) * (15/100)),
          recency_boost :=
            some (max 0 (((30 - Int.fdiv (now - pub) 86400 : Int) : ℚ) / 30) * (15/100)) }
      else it
  else it

/-- The featured boost applied to one entry (vector_search.py lines 202-206). -/
def featured_step (featured_boost : Bool) (it : HybridItem) : HybridItem :=
  if featured_boost && it.is_featured then
    { it with combined_score := it.combined_score * (11/10), featured_boost := some (1/10) }
  else it

/-- The boost loop (vector_search.py lines 190-206): both boosts are applied
in place to every entry of `results_by_id`, whichever search stage produced
it. -/
def apply_boosts (recency_boost featured_boost : Bool) (now : Int) :
    List HybridItem → List HybridItem
  | [] => []
  | it :: rest =>
    featured_step featured_boost (recency_step recency_boost now it)
      :: apply_boosts recency_boost featured_boost now rest

/-- `results.sort(key=lambda x: x["combined_score"], reverse=True)`: a stable
descending sort; `a` may precede `b` iff `b`'s key does not exceed `a`'s. -/
def hybrid_order (a b : HybridItem) : Prop := b.combined_score ≤ a.combined_score

instance : DecidableRel hybrid_order :=
  fun a b => (inferInstance : Decidable (b.combined_score ≤ a.combined_score))

instance : IsTotal HybridItem hybrid_order :=
  ⟨fun a b => le_total b.combined_score a.combined_score⟩

instance : IsTrans HybridItem hybrid_order :=
  ⟨fun _ _ _ h1 h2 => le_trans h2 h1⟩

/-- Model of `hybrid_search` (vector_search.py lines 79-213).  The two stage
calls (`search_articles` with `highlight=True` and `search_by_embedding`,
each fetching `2 * limit` candidates) are represented by their result lists
`text_results` and `semantic_results`; `now` is `datetime.now(timezone.utc)`.
The function normalises both score sets, merges them by article id, applies
the optional multiplicative boosts, sorts by combined score descending
(stable) and returns the first `limit` entries. -/
def hybrid_search (text_results : List SearchRow) (semantic_results : List (Article × ℚ))
    (limit : Nat) (semantic_weight : ℚ) (recency_boost featured_boost : Bool)
    (now : Int) : List HybridItem :=
  (List.insertionSort hybrid_order
    (apply_boosts recency_boost featured_boost now
      (merged_results semantic_weight text_results semantic_results))).take limit

/-- C8: both normalisation divisors are guarded: they are `1.0` whenever the
corresponding result set is empty or its maximum is zero, and they are never
zero for any input candidate sets, so neither normalisation divides by zero. -/
theorem hybrid_normalization_guards (ts : List SearchRow) (sems : List (Article × ℚ)) :
    max_text_score ts ≠ 0 ∧ max_distance sems ≠ 0
    ∧ ((ts = [] ∨ qmax (ts.map (fun t => t.score)) = 0) → max_text_score ts = 1)
    ∧ ((sems = [] ∨ qmax (sems.map (fun p => p.2)) = 0) → max_distance sems = 1) := by
  refine ⟨?_, ?_, ?_, ?_⟩
  · unfold max_text_score
    cases ts with
    | nil => norm_num
    | cons h t =>
      dsimp only
      split_ifs with h0
      · norm_num
      · exact h0
  · unfold max_distance
    cases sems with
    | nil => norm_num
    | cons h t =>
      dsimp only
      split_ifs with h0
      · norm_num
      · exact h0
  · intro h
    unfold max_text_score
    cases ts with
    | nil => rfl
    | cons x t =>
      rcases h with h | h0
      · exact absurd h (by simp)
      · dsimp only
        rw [if_pos h0]
  · intro h
    unfold max_distance
    cases sems with
    | nil => rfl
    | cons x t =>
      rcases h with h | h0
      · exact absurd h (by simp)
      · dsimp only
        rw [if_pos h0]

/-- Witness for C8: an empty text set and a semantic set whose only distance
is zero both normalise with divisor `1.0`. -/
theorem hybrid_normalization_guards_witness :
    max_text_score [] = 1 ∧ max_distance [(ipArticle1, 0)] = 1 := by
  have h := hybrid_normalization_guards [] [(ipArticle1, 0)]
  exact ⟨h.2.2.1 (Or.inl rfl), h.2.2.2 (Or.inr rfl)⟩

/-- The boost loop visits every entry once, in place: it is the map of the
two boost steps over the merged list. -/
theorem apply_boosts_eq_map (rb fb : Bool) (now : Int) (l : List HybridItem) :
    apply_boosts rb fb now l
      = l.map (fun it => featured_step fb (recency_step rb now it)) := by
  induction l with
  | nil => rfl
  | cons x xs ih => simp [apply_boosts, ih]

/-- C7: with featured boosting enabled the featured step multiplies the
combined score by exactly `1.1` when `is_featured` holds and returns the
entry unchanged otherwise; the boost loop applies the featured step to every
merged entry, whichever stage produced it. -/
theorem hybrid_featured_boost_exact :
    (∀ it : HybridItem, it.is_featured = true →
        (featured_step true it).combined_score = it.combined_score * (11/10))
    ∧ (∀ it : HybridItem, it.is_featured = false → featured_step true it = it)
    ∧ (∀ (rb : Bool) (now : Int) (l : List HybridItem),
        apply_boosts rb true now l
          = l.map (fun it => featured_step true (recency_step rb now it))) := by
  refine ⟨?_, ?_, ?_⟩
  · intro it h
    simp [featured_step, h]
  · intro it h
    simp [featured_step, h]
  · intro rb now l
    exact apply_boosts_eq_map rb true now l

/-- Two concrete merged entries, one featured and one not. -/
def wFeatItem : HybridItem :=
  { id := 1, title := "f", slug := "f", summary := none, published_at := none,
    is_featured := true, score := none, text_score := 0, semantic_score := some 1,
    combined_score := 2, recency_boost := none, featured_boost := none }

def wPlainItem : HybridItem :=
  { id := 2, title := "p", slug := "p", summary := some "s", published_at := some 0,
    is_featured := false, score := some 3, text_score := 1, semantic_score := none,
    combined_score := 3, recency_boost := none, featured_boost := none }

/-- Witness for C7 at the two concrete entries. -/
theorem hybrid_featured_boost_exact_witness :
    (featured_step true wFeatItem).combined_score = wFeatItem.combined_score * (11/10)
    ∧ featured_step true wPlainItem = wPlainItem :=
  ⟨hybrid_featured_boost_exact.1 wFeatItem rfl,
   hybrid_featured_boost_exact.2.1 wPlainItem rfl⟩

/-- The effective recency factor of `recency_step`: the entry's combined score
is multiplied by `1 + factor` (`0` outside the 30-day window or without a
publication date). -/
def recency_factor : Int → Option Int → ℚ
  | _, none => 0
  | now, some p =>
    if now - 30 * 86400 < p then
      max 0 (((30 - Int.fdiv (now - p) 86400 : Int) : ℚ) / 30) * (15/100)
    else 0

theorem recency_factor_nonneg (now : Int) (pub : Option Int) :
    0 ≤ recency_factor now pub := by
  cases pub with
  | none => exact le_refl _
  | some p =>
    simp only [recency_factor]
    split_ifs
    · exact mul_nonneg (le_max_left 0 _) (by norm_num)
    · exact le_refl 0

theorem recency_step_eq_factor (now : Int) (it : HybridItem) :
    (recency_step true now it).combined_score
      = it.combined_score * (1 + recency_factor now it.published_at) := by
  cases hp : it.published_at with
  | none => simp [recency_step, recency_factor, hp]
  | some p =>
    simp only [recency_step, recency_factor, hp, eq_self_iff_true, if_true]
    split_ifs with hw
    · rfl
    · simp

theorem fdiv_86400_mono {a b : Int} (h : a ≤ b) :
    Int.fdiv a 86400 ≤ Int.fdiv b 86400 := by
  rw [Int.fdiv_eq_ediv a (by norm_num), Int.fdiv_eq_ediv b (by norm_num)]
  exact Int.ediv_le_ediv (by norm_num) h

/-- C6: with recency boosting enabled, the combined score is multiplied by
`1 + factor`, where the factor is `0` for every article published 30 or more
days (in seconds) before the query time, `0.15 > 0` for an article published
at the query time, monotonically non-increasing in the article's age, and
equals `(30 - age_days) * 0.15 / 30` (with `age_days` the floored day count)
for every article inside the 30-day window. -/
theorem hybrid_recency_boost_properties :
    (∀ (now : Int) (it : HybridItem),
        (recency_step true now it).combined_score
          = it.combined_score * (1 + recency_factor now it.published_at))
    ∧ (∀ (now p : Int), 30 * 86400 ≤ now - p → recency_factor now (some p) = 0)
    ∧ (∀ now : Int, recency_factor now (some now) = 15/100 ∧ (0:ℚ) < 15/100)
    ∧ (∀ (now p1 p2 : Int), p2 ≤ p1 →
        recency_factor now (some p2) ≤ recency_factor now (some p1))
    ∧ (∀ (now p : Int), now - p < 30 * 86400 →
        recency_factor now (some p)
          = ((30 - Int.fdiv (now - p) 86400 : Int) : ℚ) * ((15/100) / 30)) := by
  refine ⟨recency_step_eq_factor, ?_, ?_, ?_, ?_⟩
  · intro now p h
    simp only [recency_factor]
    rw [if_neg (by omega)]
  · intro now
    constructor
    · simp only [recency_factor]
      rw [if_pos (by omega)]
      norm_num
    · norm_num
  · intro now p1 p2 h
    by_cases h2 : now - 30 * 86400 < p2
    · have h1 : now - 30 * 86400 < p1 := lt_of_lt_of_le h2 h
      simp only [recency_factor]
      rw [if_pos h1, if_pos h2]
      have hd : Int.fdiv (now - p1) 86400 ≤ Int.fdiv (now - p2) 86400 :=
        fdiv_86400_mono (by omega)
      have hcast : ((30 - Int.fdiv (now - p2) 86400 : Int) : ℚ)
          ≤ ((30 - Int.fdiv (now - p1) 86400 : Int) : ℚ) := by
        exact_mod_cast (by omega : (30 - Int.fdiv (now - p2) 86400 : Int)
          ≤ (30 - Int.fdiv (now - p1) 86400 : Int))
      rw [div_eq_mul_inv, div_eq_mul_inv]
      exact mul_le_mul_of_nonneg_right
        (max_le_max (le_refl 0) (mul_le_mul_of_nonneg_right hcast (by norm_num)))
        (by norm_num)
    · have hz : recency_factor now (some p2) = 0 := by
        simp only [recency_factor]
        rw [if_neg h2]
      rw [hz]
      exact recency_factor_nonneg now (some p1)
  · intro now p h
    have hw : now - 30 * 86400 < p := by omega
    simp only [recency_factor]
    rw [if_pos hw]
    have h29 : Int.fdiv 2591999 86400 = 29 := by decide
    have hle : Int.fdiv (now - p) 86400 ≤ 29 := by
      have := fdiv_86400_mono (show now - p ≤ 2591999 by omega)
      omega
    have hpos : (0:ℚ) ≤ ((30 - Int.fdiv (now - p) 86400 : Int) : ℚ) / 30 := by
      have hc : (0:ℚ) ≤ ((30 - Int.fdiv (now - p) 86400 : Int) : ℚ) := by
        exact_mod_cast (by omega : (0:Int) ≤ 30 - Int.fdiv (now - p) 86400)
      exact div_nonneg hc (by norm_num)
    rw [max_eq_right hpos]
    ring

/-- Witness for C6 at concrete ages: exactly 30 days old (factor 0), published
at query time (factor 0.15), one day old versus today (monotone), today
(window formula). -/
theorem hybrid_recency_boost_properties_witness :
    recency_factor 2592000 (some 0) = 0
    ∧ recency_factor 5 (some 5) = 15/100
    ∧ recency_factor 0 (some (-86400)) ≤ recency_factor 0 (some 0)
    ∧ recency_factor 0 (some 0) = ((30 - Int.fdiv 0 86400 : Int) : ℚ) * ((15/100) / 30) := by
  refine ⟨?_, ?_, ?_, ?_⟩
  · exact hybrid_recency_boost_properties.2.1 2592000 0 (by norm_num)
  · exact (hybrid_recency_boost_properties.2.2.1 5).1
  · exact hybrid_recency_boost_properties.2.2.2.1 0 0 (-86400) (by norm_num)
  · exact hybrid_recency_boost_properties.2.2.2.2 0 0 (by norm_num)

/-- Every entry written by the text loop has combined score
`(1 - semantic_weight) * text_score` and no `semantic_score` key. -/
theorem process_text_results_forall (w mts : ℚ) (ts : List SearchRow) :
    ∀ it ∈ process_text_results w mts ts,
      it.combined_score = (1 - w) * it.text_score ∧ it.semantic_score = none := by
  unfold process_text_results
  suffices h : ∀ (l : List SearchRow) (acc : List HybridItem),
      (∀ it ∈ acc, it.combined_score = (1 - w) * it.text_score ∧ it.semantic_score = none) →
      ∀ it ∈ l.foldl (fun acc t => dict_set acc (text_item w mts t)) acc,
        it.combined_score = (1 - w) * it.text_score ∧ it.semantic_score = none by
    exact h ts [] (by simp)
  intro l
  induction l with
  | nil =>
    intro acc hacc
    simpa using hacc
  | cons t rest ih =>
    intro acc hacc it hit
    refine ih _ ?_ it hit
    intro y hy
    simp only [dict_set] at hy
    split_ifs at hy with hmem
    · rcases List.mem_map.mp hy with ⟨z, hz, rfl⟩
      split_ifs with hzid
      · exact ⟨rfl, rfl⟩
      · exact hacc z hz
    · rcases List.mem_append.mp hy with hy | hy
      · exact hacc y hy
      · rcases List.mem_singleton.mp hy with rfl
        exact ⟨rfl, rfl⟩

/-- Invariant through the semantic loop: if every accumulated entry satisfies
the blend formula and entries that already carry a `semantic_score` key do not
reappear among the pending semantic ids (guaranteed by distinct semantic ids),
then every entry of the final merge satisfies the blend formula. -/
theorem process_semantic_results_formula (w : ℚ) :
    ∀ (sd : List SemDict) (acc : List HybridItem),
      (sd.map (fun s => s.id)).Nodup →
      (∀ it ∈ acc,
        it.combined_score = (1 - w) * it.text_score + w * ((it.semantic_score).getD 0)) →
      (∀ it ∈ acc, it.semantic_score ≠ none → it.id ∉ sd.map (fun s => s.id)) →
      ∀ it ∈ process_semantic_results w acc sd,
        it.combined_score = (1 - w) * it.text_score + w * ((it.semantic_score).getD 0) := by
  intro sd
  induction sd with
  | nil =>
    intro acc _ hform _
    simpa [process_semantic_results] using hform
  | cons s rest ih =>
    intro acc hnd hform hrem
    have hnd' : s.id ∉ rest.map (fun x => x.id) ∧ (rest.map (fun x => x.id)).Nodup := by
      rw [List.map_cons] at hnd
      exact List.nodup_cons.mp hnd
    have hstep : process_semantic_results w acc (s :: rest)
        = process_semantic_results w (sem_merge_step w acc s) rest := rfl
    rw [hstep]
    apply ih (sem_merge_step w acc s) hnd'.2
    · intro it hit
      simp only [sem_merge_step] at hit
      split_ifs at hit with hmem
      · rcases List.mem_map.mp hit with ⟨z, hz, rfl⟩
        by_cases hzid : z.id = s.id
        · rw [if_pos (by simpa using hzid)]
          have hzsem : z.semantic_score = none := by
            by_contra hne
            have hz2 := hrem z hz hne
            rw [List.map_cons] at hz2
            exact hz2 (by rw [hzid]; exact List.mem_cons_self _ _)
          have hzf := hform z hz
          rw [hzsem] at hzf
          simp only [Option.getD, mul_zero, add_zero] at hzf
          show z.combined_score + w * s.semantic_score
            = (1 - w) * z.text_score + w * ((some s.semantic_score).getD 0)
          rw [hzf]
          simp
        · rw [if_neg (by simpa using hzid)]
          exact hform z hz
      · rcases List.mem_append.mp hit with hit | hit
        · exact hform it hit
        · rcases List.mem_singleton.mp hit with rfl
          show w * s.semantic_score
            = (1 - w) * (0:ℚ) + w * ((some s.semantic_score).getD 0)
          simp
    · intro it hit hsem
      simp only [sem_merge_step] at hit
      split_ifs at hit with hmem
      · rcases List.mem_map.mp hit with ⟨z, hz, rfl⟩
        by_cases hzid : z.id = s.id
        · rw [if_pos (by simpa using hzid)]
          show z.id ∉ rest.map (fun x => x.id)
          rw [hzid]
          exact hnd'.1
        · rw [if_neg (by simpa using hzid)] at hsem ⊢
          have := hrem z hz hsem
          rw [List.map_cons] at this
          exact fun hmem2 => this (List.mem_cons_of_mem _ hmem2)
      · rcases List.mem_append.mp hit with hit | hit
        · have := hrem it hit hsem
          rw [List.map_cons] at this
          exact fun hmem2 => this (List.mem_cons_of_mem _ hmem2)
        · rcases List.mem_singleton.mp hit with rfl
          show s.id ∉ rest.map (fun x => x.id)
          exact hnd'.1

/-- C3: for distinct semantic candidate ids (a database result set), every
merged entry's pre-boost combined score is
`(1 - semantic_weight) * text_score + semantic_weight * semantic_score`, a
missing side contributing `0` (`text_score = 0` on semantic-only entries, no
`semantic_score` key on text-only entries), and the boost loop applies the
recency and featured steps to every merged entry regardless of which side
produced it. -/
theorem hybrid_combined_score_formula (w : ℚ) (ts : List SearchRow)
    (sems : List (Article × ℚ))
    (hnd : (sems.map (fun p => p.1.id)).Nodup) :
    (∀ it ∈ merged_results w ts sems,
        it.combined_score = (1 - w) * it.text_score + w * ((it.semantic_score).getD 0))
    ∧ (∀ (rb fb : Bool) (now : Int),
        apply_boosts rb fb now (merged_results w ts sems)
          = (merged_results w ts sems).map
              (fun it => featured_step fb (recency_step rb now it))) := by
  constructor
  · unfold merged_results
    apply process_semantic_results_formula
    · have hids : (semantic_dicts sems).map (fun s => s.id)
          = sems.map (fun p => p.1.id) := by
        unfold semantic_dicts
        rw [List.map_map]
        rfl
      rw [hids]
      exact hnd
    · intro it hit
      have h := process_text_results_forall w (max_text_score ts) ts it hit
      rw [h.1, h.2]
      simp
    · intro it hit hsem
      exact absurd (process_text_results_forall w (max_text_score ts) ts it hit).2 hsem
  · intro rb fb now
    exact apply_boosts_eq_map rb fb now _

/-- A concrete text row shared by witnesses. -/
def wRow : SearchRow :=
  { id := 7, slug := "hello", title := "Hello", summary := none,
    published_at := some 0, is_featured := true, score := 1 }

/-- Witness for C3: one text candidate and one semantic candidate with
distinct ids; the blend formula holds on every merged entry. -/
theorem hybrid_combined_score_formula_witness :
    ([(ipArticle2, (1:ℚ)/2)].map (fun p => p.1.id)).Nodup
    ∧ (∀ it ∈ merged_results (1/2) [wRow] [(ipArticle2, (1:ℚ)/2)],
        it.combined_score
          = (1 - (1/2)) * it.text_score + (1/2) * ((it.semantic_score).getD 0)) :=
  ⟨by decide,
   (hybrid_combined_score_formula (1/2) [wRow] [(ipArticle2, (1:ℚ)/2)] (by decide)).1⟩

/-! ### Support lemmas for the `semantic_weight` endpoints (C2) -/

/-- With both boost flags off, the boost loop is the identity. -/
theorem apply_boosts_off (now : Int) (l : List HybridItem) :
    apply_boosts false false now l = l := by
  induction l with
  | nil => rfl
  | cons x xs ih =>
    show featured_step false (recency_step false now x) :: apply_boosts false false now xs
      = x :: xs
    rw [ih]
    simp [featured_step, recency_step]

theorem foldl_max_init_le (x : ℚ) (xs : List ℚ) : x ≤ xs.foldl max x := by
  induction xs generalizing x with
  | nil => exact le_refl x
  | cons y ys ih => exact le_trans (le_max_left x y) (ih (max x y))

/-- With nonnegative text scores the text divisor is strictly positive. -/
theorem max_text_score_pos (ts : List SearchRow) (h : ∀ t ∈ ts, 0 ≤ t.score) :
    0 < max_text_score ts := by
  unfold max_text_score
  cases ts with
  | nil => norm_num
  | cons t rest =>
    dsimp only
    split_ifs with h0
    · norm_num
    · have h1 : t.score ≤ qmax ((t :: rest).map (fun t => t.score)) := by
        simpa [qmax] using foldl_max_init_le t.score (rest.map (fun t => t.score))
      have h2 : (0:ℚ) ≤ qmax ((t :: rest).map (fun t => t.score)) :=
        le_trans (h t (List.mem_cons_self t rest)) h1
      exact lt_of_le_of_ne h2 (Ne.symm h0)

/-- With nonnegative distances the semantic divisor is strictly positive. -/
theorem max_distance_pos (sems : List (Article × ℚ)) (h : ∀ p ∈ sems, 0 ≤ p.2) :
    0 < max_distance sems := by
  unfold max_distance
  cases sems with
  | nil => norm_num
  | cons p rest =>
    dsimp only
    split_ifs with h0
    · norm_num
    · have h1 : p.2 ≤ qmax ((p :: rest).map (fun q => q.2)) := by
        simpa [qmax] using foldl_max_init_le p.2 (rest.map (fun q => q.2))
      have h2 : (0:ℚ) ≤ qmax ((p :: rest).map (fun q => q.2)) :=
        le_trans (h p (List.mem_cons_self p rest)) h1
      exact lt_of_le_of_ne h2 (Ne.symm h0)

/-- With duplicate-free text ids the text loop never overwrites: it is the map
of `text_item` in text order. -/
theorem process_text_results_eq_map (w mts : ℚ) (ts : List SearchRow)
    (hnd : (ts.map (fun t => t.id)).Nodup) :
    process_text_results w mts ts = ts.map (text_item w mts) := by
  unfold process_text_results
  suffices h : ∀ (l : List SearchRow) (acc : List HybridItem),
      (l.map (fun t => t.id)).Nodup →
      (∀ t ∈ l, ∀ y ∈ acc, y.id ≠ t.id) →
      l.foldl (fun acc t => dict_set acc (text_item w mts t)) acc
        = acc ++ l.map (text_item w mts) by
    simpa using h ts [] hnd (by simp)
  intro l
  induction l with
  | nil =>
    intro acc _ _
    simp
  | cons t rest ih =>
    intro acc hnd hdisj
    have hnd' : t.id ∉ rest.map (fun t => t.id) ∧ (rest.map (fun t => t.id)).Nodup := by
      rw [List.map_cons] at hnd
      exact List.nodup_cons.mp hnd
    have hany : (acc.any fun y => y.id == (text_item w mts t).id) = false := by
      rw [List.any_eq_false]
      intro y hy
      simpa using hdisj t (List.mem_cons_self t rest) y hy
    have hset : dict_set acc (text_item w mts t) = acc ++ [text_item w mts t] := by
      unfold dict_set
      rw [if_neg (by rw [hany]; exact Bool.false_ne_true)]
    have hdisj' : ∀ s ∈ rest, ∀ y ∈ acc ++ [text_item w mts t], y.id ≠ s.id := by
      intro s hs y hy
      rcases List.mem_append.mp hy with hy | hy
      · exact hdisj s (List.mem_cons_of_mem t hs) y hy
      · rcases List.mem_singleton.mp hy with rfl
        show t.id ≠ s.id
        intro he
        exact hnd'.1 (he ▸ List.mem_map_of_mem (fun t => t.id) hs)
    rw [List.foldl_cons, hset, ih (acc ++ [text_item w mts t]) hnd'.2 hdisj',
      List.map_cons]
    simp

theorem any_map_comp {α β : Type} (f : α → β) (p : β → Bool) :
    ∀ l : List α, (l.map f).any p = l.any (fun a => p (f a)) := by
  intro l
  induction l with
  | nil => rfl
  | cons x xs ih =>
    simp only [List.map_cons, List.any_cons, ih]

theorem any_congr_mem {α : Type} {p q : α → Bool} :
    ∀ l : List α, (∀ x ∈ l, p x = q x) → l.any p = l.any q := by
  intro l
  induction l with
  | nil => intro _; rfl
  | cons x xs ih =>
    intro h
    simp only [List.any_cons]
    rw [h x (List.mem_cons_self x xs), ih (fun y hy => h y (List.mem_cons_of_mem x hy))]

/-- When no pending semantic id is already present (e.g. an empty text stage),
with duplicate-free semantic ids the semantic loop only appends, in semantic
order. -/
theorem process_semantic_results_eq_append (w : ℚ) :
    ∀ (sd : List SemDict) (acc : List HybridItem),
      (sd.map (fun s => s.id)).Nodup →
      (∀ s ∈ sd, ∀ y ∈ acc, y.id ≠ s.id) →
      process_semantic_results w acc sd = acc ++ sd.map (sem_only_item w) := by
  intro sd
  induction sd with
  | nil =>
    intro acc _ _
    simp [process_semantic_results]
  | cons s rest ih =>
    intro acc hnd hdisj
    have hnd' : s.id ∉ rest.map (fun x => x.id) ∧ (rest.map (fun x => x.id)).Nodup := by
      rw [List.map_cons] at hnd
      exact List.nodup_cons.mp hnd
    have hany : (acc.any fun y => y.id == s.id) = false := by
      rw [List.any_eq_false]
      intro y hy
      simpa using hdisj s (List.mem_cons_self s rest) y hy
    have hstep : sem_merge_step w acc s = acc ++ [sem_only_item w s] := by
      unfold sem_merge_step
      rw [if_neg (by rw [hany]; exact Bool.false_ne_true)]
    have hdisj' : ∀ s' ∈ rest, ∀ y ∈ acc ++ [sem_only_item w s], y.id ≠ s'.id := by
      intro s' hs' y hy
      rcases List.mem_append.mp hy with hy | hy
      · exact hdisj s' (List.mem_cons_of_mem s hs') y hy
      · rcases List.mem_singleton.mp hy with rfl
        show s.id ≠ s'.id
        intro he
        exact hnd'.1 (he ▸ List.mem_map_of_mem (fun x => x.id) hs')
    show process_semantic_results w (sem_merge_step w acc s) rest = _
    rw [hstep, ih (acc ++ [sem_only_item w s]) hnd'.2 hdisj', List.map_cons]
    simp

/-- At `semantic_weight = 0` the semantic loop leaves every present entry's
combined score unchanged (it adds `0 * semantic_score`) and appends the absent
entries with combined score `0`: the `(id, combined_score)` projection of the
merge is the accumulator's projection followed by zero-scored semantic-only
ids.  `T` tracks (as a boolean predicate) which ids are present in the
accumulator, which with duplicate-free semantic ids is invariant along the
loop for the pending ids. -/
theorem process_semantic_results_zero_proj (T : Nat → Bool) :
    ∀ (sd : List SemDict) (acc : List HybridItem),
      (sd.map (fun s => s.id)).Nodup →
      (∀ s ∈ sd, (acc.any fun y => y.id == s.id) = T s.id) →
      (process_semantic_results 0 acc sd).map (fun it => (it.id, it.combined_score))
        = acc.map (fun it => (it.id, it.combined_score))
          ++ (sd.filter (fun s => !(T s.id))).map (fun s => (s.id, (0:ℚ))) := by
  intro sd
  induction sd with
  | nil =>
    intro acc _ _
    simp [process_semantic_results]
  | cons s rest ih =>
    intro acc hnd hT
    have hnd' : s.id ∉ rest.map (fun x => x.id) ∧ (rest.map (fun x => x.id)).Nodup := by
      rw [List.map_cons] at hnd
      exact List.nodup_cons.mp hnd
    have hTs := hT s (List.mem_cons_self s rest)
    show (process_semantic_results 0 (sem_merge_step 0 acc s) rest).map _ = _
    by_cases hpres : (acc.any fun y => y.id == s.id) = true
    · -- the id is present: in-place update, projection unchanged
      have hstep : sem_merge_step 0 acc s
          = acc.map (fun y =>
              if (y.id == s.id) = true then
                { y with semantic_score := some s.semantic_score,
                         combined_score := y.combined_score + 0 * s.semantic_score }
              else y) := by
        unfold sem_merge_step
        rw [if_pos hpres]
      have hproj : (sem_merge_step 0 acc s).map (fun it => (it.id, it.combined_score))
          = acc.map (fun it => (it.id, it.combined_score)) := by
        rw [hstep, List.map_map]
        apply List.map_congr_left
        intro y _
        by_cases hy : y.id = s.id
        · simp [hy]
        · simp [hy]
      have hT' : ∀ s' ∈ rest, ((sem_merge_step 0 acc s).any fun y => y.id == s'.id)
          = T s'.id := by
        intro s' hs'
        rw [hstep, List.any_map]
        have : ∀ y ∈ acc,
            ((fun y => y.id == s'.id) ∘ (fun y =>
              if (y.id == s.id) = true then
                { y with semantic_score := some s.semantic_score,
                         combined_score := y.combined_score + 0 * s.semantic_score }
              else y)) y = (y.id == s'.id) := by
          intro y _
          by_cases hy : y.id = s.id
          · simp [Function.comp, hy]
          · simp [Function.comp, hy]
        rw [any_congr_mem acc this]
        exact hT s' (List.mem_cons_of_mem s hs')
      rw [ih (sem_merge_step 0 acc s) hnd'.2 hT', hproj]
      have hfilter : ((s :: rest).filter (fun s => !(T s.id)))
          = rest.filter (fun s => !(T s.id)) := by
        rw [List.filter_cons]
        rw [hpres] at hTs
        rw [if_neg (by rw [← hTs]; simp)]
      rw [hfilter]
    · -- the id is absent: append a zero-scored semantic-only entry
      have hfalse : (acc.any fun y => y.id == s.id) = false :=
        Bool.eq_false_iff.mpr hpres
      have hstep : sem_merge_step 0 acc s = acc ++ [sem_only_item 0 s] := by
        unfold sem_merge_step
        rw [if_neg (by rw [hfalse]; exact Bool.false_ne_true)]
      have hT' : ∀ s' ∈ rest, ((sem_merge_step 0 acc s).any fun y => y.id == s'.id)
          = T s'.id := by
        intro s' hs'
        rw [hstep, List.any_append]
        have hne : ((([sem_only_item 0 s]).any fun y => y.id == s'.id)) = false := by
          simp only [List.any_cons, List.any_nil, Bool.or_false]
          show (s.id == s'.id) = false
          rw [beq_eq_false_iff_ne]
          intro he
          exact hnd'.1 (he ▸ List.mem_map_of_mem (fun x => x.id) hs')
        rw [hne, Bool.or_false]
        exact hT s' (List.mem_cons_of_mem s hs')
      rw [ih (sem_merge_step 0 acc s) hnd'.2 hT', hstep]
      have hfilter : ((s :: rest).filter (fun s => !(T s.id)))
          = s :: rest.filter (fun s => !(T s.id)) := by
        rw [List.filter_cons]
        rw [hfalse] at hTs
        rw [if_pos (by rw [← hTs]; simp)]
      rw [hfilter]
      simp [sem_only_item]

/-- C2 (amended): the `semantic_weight` endpoints, with the recency and
featured boosts disabled and duplicate-free candidate ids.

With `semantic_weight = 0` (and text scores nonincreasing and nonnegative, as
`search_articles` orders and produces them) the fused list is the text-only
ranking **followed by** the semantic-only candidates, whose combined score is
`0`, truncated to `limit` — so it equals the text-only ranking truncated to
`limit` exactly when the text stage supplies at least `limit` candidates.

With `semantic_weight = 1` and no text candidates (and distances nonnegative
and nondecreasing, as `search_by_embedding` orders them) the fused list is the
semantic ranking truncated to `limit`. -/
theorem hybrid_search_weight_endpoints :
    (∀ (ts : List SearchRow) (sems : List (Article × ℚ)) (limit : Nat) (now : Int),
      (ts.map (fun t => t.id)).Nodup →
      (sems.map (fun p => p.1.id)).Nodup →
      ts.Pairwise (fun a b => b.score ≤ a.score) →
      (∀ t ∈ ts, 0 ≤ t.score) →
      (hybrid_search ts sems limit 0 false false now).map (fun it => it.id)
        = (ts.map (fun t => t.id)
            ++ (sems.filter (fun p => !(ts.any fun t => t.id == p.1.id))).map
                (fun p => p.1.id)).take limit)
    ∧ (∀ (sems : List (Article × ℚ)) (limit : Nat) (now : Int),
      (sems.map (fun p => p.1.id)).Nodup →
      sems.Pairwise (fun a b => a.2 ≤ b.2) →
      (∀ p ∈ sems, 0 ≤ p.2) →
      (hybrid_search [] sems limit 1 false false now).map (fun it => it.id)
        = (sems.map (fun p => p.1.id)).take limit) := by
  constructor
  · intro ts sems limit now hndt hnds hsort hnn
    have htext : process_text_results 0 (max_text_score ts) ts
        = ts.map (text_item 0 (max_text_score ts)) :=
      process_text_results_eq_map 0 (max_text_score ts) ts hndt
    have hsdnodup : ((semantic_dicts sems).map (fun s => s.id)).Nodup := by
      unfold semantic_dicts
      rw [List.map_map]
      exact hnds
    have hT0 : ∀ s ∈ semantic_dicts sems,
        ((ts.map (text_item 0 (max_text_score ts))).any fun y => y.id == s.id)
          = (fun n => ts.any fun t => t.id == n) s.id := by
      intro s _
      rw [any_map_comp]
      rfl
    have hproj : (merged_results 0 ts sems).map (fun it => (it.id, it.combined_score))
        = (ts.map (text_item 0 (max_text_score ts))).map
            (fun it => (it.id, it.combined_score))
          ++ ((semantic_dicts sems).filter
              (fun s => !(ts.any fun t => t.id == s.id))).map (fun s => (s.id, (0:ℚ))) := by
      unfold merged_results
      rw [htext]
      exact process_semantic_results_zero_proj (fun n => ts.any fun t => t.id == n)
        (semantic_dicts sems) (ts.map (text_item 0 (max_text_score ts))) hsdnodup hT0
    have hids : (merged_results 0 ts sems).map (fun it => it.id)
        = ts.map (fun t => t.id)
          ++ (sems.filter (fun p => !(ts.any fun t => t.id == p.1.id))).map
              (fun p => p.1.id) := by
      have h1 : (merged_results 0 ts sems).map (fun it => it.id)
          = ((merged_results 0 ts sems).map
              (fun it => (it.id, it.combined_score))).map Prod.fst := by
        rw [List.map_map]
        rfl
      rw [h1, hproj, List.map_append, List.map_map, List.map_map]
      congr 1
      unfold semantic_dicts
      rw [List.filter_map, List.map_map]
      have hq : sems.filter
            ((fun s => !ts.any fun t => t.id == s.id) ∘ semantic_dict (max_distance sems))
          = sems.filter (fun p => !ts.any fun t => t.id == p.1.id) :=
        List.filter_congr (fun p _ => rfl)
      rw [hq, List.map_map]
      exact List.map_congr_left (fun p _ => rfl)
    have hcombs : (merged_results 0 ts sems).map (fun it => it.combined_score)
        = ts.map (fun t => (1 - 0) * (t.score / max_text_score ts))
          ++ ((semantic_dicts sems).filter
              (fun s => !(ts.any fun t => t.id == s.id))).map (fun _ => (0:ℚ)) := by
      have h1 : (merged_results 0 ts sems).map (fun it => it.combined_score)
          = ((merged_results 0 ts sems).map
              (fun it => (it.id, it.combined_score))).map Prod.snd := by
        rw [List.map_map]
        rfl
      rw [h1, hproj, List.map_append, List.map_map, List.map_map]
      congr 1
      rw [List.map_map]
      exact List.map_congr_left (fun s _ => rfl)
    have hmtpos : 0 < max_text_score ts := max_text_score_pos ts hnn
    have hP : ((merged_results 0 ts sems).map
        (fun it => it.combined_score)).Pairwise (fun a b => b ≤ a) := by
      rw [hcombs]
      rw [List.pairwise_append]
      refine ⟨?_, ?_, ?_⟩
      · rw [List.pairwise_map]
        refine hsort.imp ?_
        intro a b hab
        exact mul_le_mul_of_nonneg_left
          ((div_le_div_iff_of_pos_right hmtpos).mpr hab) (by norm_num)
      · rw [List.pairwise_map]
        exact List.pairwise_of_forall (fun _ _ => le_refl 0)
      · intro x hx y hy
        rcases List.mem_map.mp hx with ⟨t, ht, rfl⟩
        rcases List.mem_map.mp hy with ⟨_, _, rfl⟩
        exact mul_nonneg (by norm_num) (div_nonneg (hnn t ht) (le_of_lt hmtpos))
    have hsorted : List.Sorted hybrid_order (merged_results 0 ts sems) := by
      have h2 := List.pairwise_map.mp hP
      exact h2
    unfold hybrid_search
    rw [apply_boosts_off, List.Sorted.insertionSort_eq hsorted, List.map_take, hids]
  · intro sems limit now hnds hasc hnn
    have hsdnodup : ((semantic_dicts sems).map (fun s => s.id)).Nodup := by
      unfold semantic_dicts
      rw [List.map_map]
      exact hnds
    have htext : process_text_results 1 (max_text_score []) [] = [] := rfl
    have hmerged : merged_results 1 [] sems
        = (semantic_dicts sems).map (sem_only_item 1) := by
      unfold merged_results
      rw [htext]
      simpa using process_semantic_results_eq_append 1 (semantic_dicts sems) []
        hsdnodup (by simp)
    have hmdpos : 0 < max_distance sems := max_distance_pos sems hnn
    have hids : (merged_results 1 [] sems).map (fun it => it.id)
        = sems.map (fun p => p.1.id) := by
      rw [hmerged]
      unfold semantic_dicts
      rw [List.map_map, List.map_map]
      exact List.map_congr_left (fun p _ => rfl)
    have hcombs : (merged_results 1 [] sems).map (fun it => it.combined_score)
        = sems.map (fun p => 1 * (1 - p.2 / max_distance sems)) := by
      rw [hmerged]
      unfold semantic_dicts
      rw [List.map_map, List.map_map]
      exact List.map_congr_left (fun p _ => rfl)
    have hP : ((merged_results 1 [] sems).map
        (fun it => it.combined_score)).Pairwise (fun a b => b ≤ a) := by
      rw [hcombs, List.pairwise_map]
      refine hasc.imp ?_
      intro a b hab
      have h1 : a.2 / max_distance sems ≤ b.2 / max_distance sems :=
        (div_le_div_iff_of_pos_right hmdpos).mpr hab
      have h2 : 1 - b.2 / max_distance sems ≤ 1 - a.2 / max_distance sems := by
        linarith
      calc 1 * (1 - b.2 / max_distance sems)
          = 1 - b.2 / max_distance sems := one_mul _
        _ ≤ 1 - a.2 / max_distance sems := h2
        _ = 1 * (1 - a.2 / max_distance sems) := (one_mul _).symm
    have hsorted : List.Sorted hybrid_order (merged_results 1 [] sems) := by
      have h2 := List.pairwise_map.mp hP
      exact h2
    unfold hybrid_search
    rw [apply_boosts_off, List.Sorted.insertionSort_eq hsorted, List.map_take, hids]

/-- Rows for the C2 witness (integer scores, descending). -/
def w2RowA : SearchRow :=
  { id := 1, slug := "a", title := "A", summary := none,
    published_at := none, is_featured := false, score := 2 }

def w2RowB : SearchRow :=
  { id := 4, slug := "b", title := "B", summary := none,
    published_at := none, is_featured := false, score := 1 }

/-- Witness for C2 (amended): two text candidates and two semantic candidates
(one overlapping id), boosts disabled; both endpoint equalities hold. -/
theorem hybrid_search_weight_endpoints_witness :
    (hybrid_search [w2RowA, w2RowB] [(ipArticle1, 1), (ipArticle2, 2)] 5 0 false false 0).map
        (fun it => it.id)
      = ([w2RowA, w2RowB].map (fun t => t.id)
          ++ (([(ipArticle1, (1:ℚ)), (ipArticle2, 2)]).filter
              (fun p => !([w2RowA, w2RowB].any fun t => t.id == p.1.id))).map
              (fun p => p.1.id)).take 5
    ∧ (hybrid_search [] [(ipArticle1, (1:ℚ)), (ipArticle2, 2)] 5 1 false false 0).map
        (fun it => it.id)
      = (([(ipArticle1, (1:ℚ)), (ipArticle2, 2)]).map (fun p => p.1.id)).take 5 := by
  constructor
  · exact hybrid_search_weight_endpoints.1 [w2RowA, w2RowB]
      [(ipArticle1, 1), (ipArticle2, 2)] 5 0 (by decide) (by decide) (by decide) (by decide)
  · exact hybrid_search_weight_endpoints.2 [(ipArticle1, 1), (ipArticle2, 2)] 5 0
      (by decide) (by decide) (by decide)

/-- Candidates for the C2 counterexample.  Text stage: article 1 (score 1.0,
no date, not featured) above article 3 (score 0.95, published at the query
time, featured).  Semantic stage: article 2 only, so its normalised
similarity is `1 - (1/2)/(1/2) = 0`. -/
def c2RowA : SearchRow :=
  { id := 1, slug := "a", title := "A", summary := none,
    published_at := none, is_featured := false, score := 1 }

def c2RowC : SearchRow :=
  { id := 3, slug := "c", title := "C", summary := none,
    published_at := some 0, is_featured := true, score := 95/100 }

def c2Art : Article :=
  { id := 2, title := "B", slug := "b", summary := none,
    published_at := none, is_featured := false, embedding := some [1] }

/-- C2 as stated is false (both endpoints), at one concrete input with the
default boosts enabled and `limit = 3`:

* `semantic_weight = 0` returns ids `[3, 1, 2]`, not the text ranking
  `[1, 3]`: the multiplicative recency/featured boosts lift article 3
  (`0.95 × 1.15 × 1.1 > 1`) above article 1, and semantic-only article 2 pads
  the result with combined score `0`;
* `semantic_weight = 1` returns `[1, 3, 2]`, not the semantic ranking `[2]`:
  the worst (here only) semantic candidate normalises to similarity `0`, tying
  with the text-only entries at combined score `0`, and the stable sort keeps
  the text entries, inserted first, ahead of it. -/
theorem hybrid_search_weight_endpoints_counterexample :
    (hybrid_search [c2RowA, c2RowC] [(c2Art, 1/2)] 3 0 true true 0).map (fun it => it.id)
        ≠ (([c2RowA, c2RowC].map (fun t => t.id)).take 3)
    ∧ (hybrid_search [c2RowA, c2RowC] [(c2Art, 1/2)] 3 1 true true 0).map (fun it => it.id)
        ≠ (([(c2Art, (1:ℚ)/2)].map (fun p => p.1.id)).take 3) := by
  constructor
  · intro h
    have h2 : (hybrid_search [c2RowA, c2RowC] [(c2Art, 1/2)] 3 0 true true 0).map
        (fun it => it.id) = [3, 1, 2] := by
      norm_num [hybrid_search, merged_results, process_text_results,
        process_semantic_results, semantic_dicts, semantic_dict, max_distance,
        max_text_score, qmax, dict_set, sem_merge_step, sem_only_item, text_item,
        apply_boosts, recency_step, featured_step, List.insertionSort,
        List.orderedInsert, hybrid_order, c2RowA, c2RowC, c2Art, Int.zero_fdiv,
        max_def, min_def]
    rw [h2] at h
    simp at h
  · intro h
    have h2 : (hybrid_search [c2RowA, c2RowC] [(c2Art, 1/2)] 3 1 true true 0).map
        (fun it => it.id) = [1, 3, 2] := by
      norm_num [hybrid_search, merged_results, process_text_results,
        process_semantic_results, semantic_dicts, semantic_dict, max_distance,
        max_text_score, qmax, dict_set, sem_merge_step, sem_only_item, text_item,
        apply_boosts, recency_step, featured_step, List.insertionSort,
        List.orderedInsert, hybrid_order, c2RowA, c2RowC, c2Art, Int.zero_fdiv,
        max_def, min_def]
    rw [h2] at h
    simp at h
